import Mathlib

/-!
# Verification of the generic streaming worker pool

Shallow embedding of `RunGenericWorkerPoolStream` (package `worker`) and
proofs of the frozen claims about it.

The Go function runs a feeder goroutine, `NumWorkers` worker goroutines and
a finalizer goroutine over a buffered output channel.  The embedding models
one call as:

* pure data (`Job`, `Result`, `WorkerPoolConfig`) translated field by field;
* the synchronous pre-flight section (empty batch, duplicate-ID scan,
  caller-context check) and the configuration-default section as pure
  functions translated line by line from the source;
* the concurrent section as an event trace.  Every job is handled by
  exactly one iteration of either the feeder's send loop or a worker's
  receive loop; the nondeterministic outcome of that iteration (which
  branch of the `select`s fired, whether the user function returned or
  panicked, and with what) is chosen by an adversarial oracle `JobPath`,
  and the per-iteration event sequence for each path is read off the
  source code in program order.  A whole execution interleaves the
  per-job sequences under an adversarial schedule; the finalizer's two
  `WaitGroup.Wait` calls guarantee that its `cancelPool(); close(outCh)`
  events follow every feeder and worker event, so the model appends them
  after the interleaving.
* the deduplicating sink `sendResult` (a `sync.Map` keyed by result ID)
  as a fold over the trace that drops a send whose ID was already sent.

Durations are `Int` nanoseconds (Go `time.Duration` is an `int64` count of
nanoseconds); the one multiplication the config section performs is
reduced modulo 2^64 into the signed range, as Go would.
-/

namespace Worker

/-- Two's-complement wrap of an integer into the signed 64-bit range,
the semantics of Go `int64` arithmetic. -/
def wrap64 (x : Int) : Int :=
  (x + 2 ^ 63) % 2 ^ 64 - 2 ^ 63

/-- `time.Second` in nanoseconds (Go `time.Duration` units). -/
def second : Int := 1000000000

/-- `Job[T]`: a generic job input (`ID` unique identifier, `Data` payload). -/
structure Job (T : Type) where
  ID : Int
  Data : T
  deriving Repr, DecidableEq

/-- `Result[R]`: the output of processing a `Job`.  Go's `Value` field always
exists (zero value when unset); the embedding uses `none` for the zero
value, `some v` for a value actually produced by the user function.
`Err` is the error's message, `none` for a nil error. -/
structure Result (R : Type) where
  ID : Int
  Value : Option R
  Err : Option String
  deriving Repr, DecidableEq

/-- `WorkerPoolConfig`: configuration options, durations in nanoseconds. -/
structure WorkerPoolConfig where
  NumWorkers : Int
  WorkerTimeout : Int
  GlobalTimeout : Int
  StopOnError : Bool
  deriving Repr, DecidableEq

/-- Message of the sentinel `ErrSkipped = fmt.Errorf("job not processed
(cancelled or skipped)")`. -/
def errSkippedMsg : String := "job not processed (cancelled or skipped)"

/-- Message of `fmt.Errorf("duplicate job ID detected: %d (all jobs
rejected)", id)`. -/
def dupErrMsg (id : Int) : String :=
  "duplicate job ID detected: " ++ toString id ++ " (all jobs rejected)"

/-- Message of `fmt.Errorf("panic: %v", r)`. -/
def panicErrMsg (v : String) : String := "panic: " ++ v

/-- The configuration-default section of `RunGenericWorkerPoolStream`,
translated statement by statement:

```
if cfg.NumWorkers <= 0 { cfg.NumWorkers = 2 }
if cfg.GlobalTimeout <= 0 { cfg.GlobalTimeout = 30 * time.Second }
if cfg.WorkerTimeout <= 0 {
    cfg.WorkerTimeout = 15 * time.Second
    if cfg.WorkerTimeout > cfg.GlobalTimeout { cfg.WorkerTimeout = cfg.GlobalTimeout }
}
if cfg.GlobalTimeout < cfg.WorkerTimeout { cfg.GlobalTimeout = cfg.WorkerTimeout * 2 }
```
-/
def applyDefaults (cfg : WorkerPoolConfig) : WorkerPoolConfig :=
  let nw := if cfg.NumWorkers ≤ 0 then 2 else cfg.NumWorkers
  let gt := if cfg.GlobalTimeout ≤ 0 then 30 * second else cfg.GlobalTimeout
  let wt :=
    if cfg.WorkerTimeout ≤ 0 then
      if 15 * second > gt then gt else 15 * second
    else cfg.WorkerTimeout
  let gt2 := if gt < wt then wrap64 (wt * 2) else gt
  { NumWorkers := nw, WorkerTimeout := wt, GlobalTimeout := gt2,
    StopOnError := cfg.StopOnError }

/-- The duplicate-ID pre-flight scan over the job IDs, translated from

```
seenIDs := make(map[int]bool, len(jobs))
for _, job := range jobs {
    if seenIDs[job.ID] { ... return ... }  -- reports job.ID
    seenIDs[job.ID] = true
}
```

`seen` carries the contents of the `seenIDs` map. -/
def findDupIds (seen : List Int) : List Int → Option Int
  | [] => none
  | x :: xs => if x ∈ seen then some x else findDupIds (x :: seen) xs

/-- The ID the pre-flight scan reports for a batch, `none` when all IDs are
distinct. -/
def findDuplicate {T : Type} (jobs : List (Job T)) : Option Int :=
  findDupIds [] (jobs.map Job.ID)

/-- Specification-side characterization of the duplicate report, written
from the claim's words, to be compared with the scan `findDupIds` from the
source: the reported ID is the ID at the earliest position of the list
whose ID already occurs strictly before it (the first second-occurrence). -/
def specFirstRepeated (ids : List Int) : Option Int :=
  ((List.range ids.length).find? fun i => decide (ids.getD i 0 ∈ ids.take i)).map
    fun i => ids.getD i 0

/-- `specFirstRepeated` generalized by a prefix of already-seen IDs; the
proof relating it to the source's scan inducts with this seed. -/
def specFirstRepeatedFrom (pre : List Int) (ids : List Int) : Option Int :=
  ((List.range ids.length).find? fun i =>
      decide (ids.getD i 0 ∈ pre ++ ids.take i)).map
    fun i => ids.getD i 0

/-- The failure stream the duplicate-ID branch writes, in the order of its
`for _, j := range jobs` loop. -/
def dupStream {T : Type} (R : Type) (jobs : List (Job T)) (id : Int) :
    List (Result R) :=
  jobs.map fun j => ⟨j.ID, none, some (dupErrMsg id)⟩

/-- The skipped stream the already-cancelled-context branch writes, in the
order of its `for _, job := range jobs` loop. -/
def skipStream {T : Type} (R : Type) (jobs : List (Job T)) : List (Result R) :=
  jobs.map fun j => ⟨j.ID, none, some errSkippedMsg⟩

/-- Observable events of the concurrent section of one call. -/
inductive Event (R : Type) where
  /-- `globalSemaphore <- struct{}{}` succeeded. -/
  | acquireSem
  /-- `<-globalSemaphore` (the deferred release). -/
  | releaseSem
  /-- `workerFunc(taskCtx, job.Data)` was entered for the job with this ID. -/
  | invokeFn (id : Int)
  /-- `sendResult(r)` was called (the sink decides whether it forwards). -/
  | send (r : Result R)
  /-- `safeCancelPool()` was called (the `sync.Once` wrapper). -/
  | cancelSafe
  /-- `cancelPool()` was called directly (the raw `context.CancelFunc`). -/
  | cancelRaw
  /-- `close(outCh)`. -/
  | closeOut
  deriving Repr, DecidableEq

/-- The nondeterministic fate of one job inside the concurrent section:
which branches of the `select`s fired and how the user function ended.
Timing (deadlines, scheduling) is absorbed into this choice. -/
inductive JobPath (R : Type) where
  /-- The feeder's `select` saw `poolCtx.Done()` instead of handing the
  job to a worker. -/
  | feederSkip
  /-- A worker received the job and its pre-work `select` saw
  `poolCtx.Done()`. -/
  | ctxSkip
  /-- A worker received the job and the semaphore-acquisition `select`
  saw `poolCtx.Done()` (only reachable when a semaphore is provided). -/
  | semSkip
  /-- `workerFunc` panicked with the given value. -/
  | panicked (msg : String)
  /-- `workerFunc` returned value `v` and error `err` (`none` = nil). -/
  | ran (v : R) (err : Option String)
  deriving Repr, DecidableEq

/-- The event sequence of the single iteration that handles job `j`, in
program order, read off the feeder loop body and the worker loop body of
the source.  `hasSem` says whether `globalSemaphore` is non-nil.  Note the
two orderings around `safeCancelPool`: on the error return path the source
runs `safeCancelPool()` *before* `sendResult(...)`; in the panic handler it
runs `sendResult(...)` before `safeCancelPool()`.  The deferred semaphore
release was registered before the recover handler, so it fires after it. -/
def jobEvents {T R : Type} (cfg : WorkerPoolConfig) (hasSem : Bool)
    (j : Job T) : JobPath R → List (Event R)
  | .feederSkip => [.send ⟨j.ID, none, some errSkippedMsg⟩]
  | .ctxSkip => [.send ⟨j.ID, none, some errSkippedMsg⟩]
  | .semSkip => [.send ⟨j.ID, none, some errSkippedMsg⟩]
  | .panicked msg =>
      (if hasSem then [.acquireSem] else []) ++
      [.invokeFn j.ID, .send ⟨j.ID, none, some (panicErrMsg msg)⟩] ++
      (if cfg.StopOnError then [.cancelSafe] else []) ++
      (if hasSem then [.releaseSem] else [])
  | .ran v err =>
      (if hasSem then [.acquireSem] else []) ++
      [.invokeFn j.ID] ++
      (if err.isSome ∧ cfg.StopOnError then [.cancelSafe] else []) ++
      [.send ⟨j.ID, some v, err⟩] ++
      (if hasSem then [.releaseSem] else [])

/-- Per-job event sequences for a whole batch; `paths i` is the fate of the
`i`-th job. -/
def perJobEvents {T R : Type} (cfg : WorkerPoolConfig) (hasSem : Bool)
    (paths : Nat → JobPath R) : Nat → List (Job T) → List (List (Event R))
  | _, [] => []
  | i, j :: js =>
      jobEvents cfg hasSem j (paths i) :: perJobEvents cfg hasSem paths (i + 1) js

/-- Adversarial interleaving of the per-job sequences: each schedule entry
picks which sequence contributes its next event; sequences left over when
the schedule ends are flushed in order.  (Every job iteration does run to
completion before the finalizer proceeds — the finalizer blocks on the
feeder's and the workers' `WaitGroup`s — so every interleaving is
complete.) -/
def interleave {α : Type} : List Nat → List (List α) → List α
  | [], ls => ls.flatten
  | k :: s, ls =>
      match ls[k]? with
      | some (e :: rest) => e :: interleave s (ls.set k rest)
      | some [] => interleave s ls
      | none => interleave s ls

/-- The finalizer goroutine's own events, after both `Wait`s return:
`cancelPool()` (the raw cancel, not the `sync.Once` wrapper) and then
`close(outCh)`. -/
def finalizerEvents (R : Type) : List (Event R) :=
  [.cancelRaw, .closeOut]

/-- What one call produces: the full contents of the returned stream and
the event trace of the call. -/
structure RunOutput (R : Type) where
  stream : List (Result R)
  trace : List (Event R)
  deriving Repr, DecidableEq

/-- The pool's cancellation state: `onceDone` is whether the `sync.Once`
guarding `safeCancelPool` has fired; `ctxCancelled` is whether the pool
context's `CancelFunc` has been called at least once (a Go `CancelFunc`
does nothing after its first call, so one bit captures its state). -/
structure CancelState where
  onceDone : Bool
  ctxCancelled : Bool
  deriving Repr, DecidableEq

/-- `cancelPool()`: the raw `context.CancelFunc` obtained from
`context.WithTimeout`.  Modelled on Go's documented semantics: the first
call cancels the context, subsequent calls do nothing. -/
def cancelPool (s : CancelState) : CancelState :=
  { s with ctxCancelled := true }

/-- `safeCancelPool()`: `cancelOnce.Do(func() { cancelPool() })`. -/
def safeCancelPool (s : CancelState) : CancelState :=
  if s.onceDone then s else cancelPool { s with onceDone := true }

/-- Boolean recognizers for event shapes, used to count and filter. -/
def isAcquire {R : Type} : Event R → Bool
  | .acquireSem => true
  | _ => false

/-- Recognizer for `releaseSem`. -/
def isRelease {R : Type} : Event R → Bool
  | .releaseSem => true
  | _ => false

/-- Recognizer for user-function invocations. -/
def isInvoke {R : Type} : Event R → Bool
  | .invokeFn _ => true
  | _ => false

/-- Recognizer for sink sends. -/
def isSend {R : Type} : Event R → Bool
  | .send _ => true
  | _ => false

/-- Recognizer for `safeCancelPool` invocations. -/
def isCancelSafe {R : Type} : Event R → Bool
  | .cancelSafe => true
  | _ => false

/-- The result carried by a send event. -/
def sendResultOf {R : Type} : Event R → Option (Result R)
  | .send r => some r
  | _ => none

/-- The results passed to the sink along a trace, in order. -/
def sendsOf {R : Type} (t : List (Event R)) : List (Result R) :=
  t.filterMap sendResultOf

/-- `true` when some user-function invocation occurs at or after the first
`safeCancelPool` invocation of the trace. -/
def hasInvokeAfterCancel {R : Type} (t : List (Event R)) : Bool :=
  ((t.dropWhile fun e => !isCancelSafe e).drop 1).any isInvoke

/-- The deduplicating sink `sendResult` applied along a trace: `sent` is
the key set of the `sentResults` sync.Map; a send whose ID is already
present is dropped, otherwise it is forwarded to the output channel and
recorded.  Returns the contents of the output channel in send order. -/
def streamOfTrace {R : Type} (sent : List Int) : List (Event R) → List (Result R)
  | [] => []
  | e :: rest =>
      match sendResultOf e with
      | some r =>
          if r.ID ∈ sent then streamOfTrace sent rest
          else r :: streamOfTrace (r.ID :: sent) rest
      | none => streamOfTrace sent rest

/-- One call to `RunGenericWorkerPoolStream`, following the source top to
bottom: empty-batch early exit, duplicate-ID rejection, already-cancelled
caller context, then the configured concurrent run.  `ctxCancelled` is
whether `ctx.Done()` is already closed at entry; `paths` and `sched`
resolve the nondeterminism of the concurrent section. -/
def RunGenericWorkerPoolStream {T R : Type} (ctxCancelled : Bool)
    (jobs : List (Job T)) (hasSem : Bool) (cfg : WorkerPoolConfig)
    (paths : Nat → JobPath R) (sched : List Nat) : RunOutput R :=
  if jobs.isEmpty then ⟨[], [.closeOut]⟩
  else
    match findDuplicate jobs with
    | some id =>
        ⟨dupStream R jobs id, (dupStream R jobs id).map .send ++ [.closeOut]⟩
    | none =>
        if ctxCancelled then
          ⟨skipStream R jobs, (skipStream R jobs).map .send ++ [.closeOut]⟩
        else
          let c := applyDefaults cfg
          let body := interleave sched (perJobEvents c hasSem paths 0 jobs)
          let t := body ++ finalizerEvents R
          ⟨streamOfTrace [] t, t⟩

/-! ## Concrete instances used by witnesses and counterexamples -/

/-- A batch in which ID 1 occurs twice (positions 0 and 2). -/
def dupJobsEx : List (Job Int) := [⟨1, 10⟩, ⟨2, 20⟩, ⟨1, 30⟩]

/-- A batch of two jobs with distinct IDs. -/
def twoJobsEx : List (Job Int) := [⟨1, 10⟩, ⟨2, 20⟩]

/-- Outcome oracle: the first job's user call returns an error, the second
returns 7 successfully. -/
def pathsErrFirstEx : Nat → JobPath Int :=
  fun i => if i = 0 then .ran 0 (some "boom") else .ran 7 none

/-- Outcome oracle: every job is skipped by the feeder. -/
def pathsSkipEx : Nat → JobPath Int := fun _ => .feederSkip

/-- The all-zero configuration: every default applies. -/
def cfgZeroEx : WorkerPoolConfig := ⟨0, 0, 0, false⟩

/-- A stop-on-error configuration with the stock timeouts. -/
def cfgStopEx : WorkerPoolConfig := ⟨2, 15 * second, 30 * second, true⟩

/-- A caller-supplied worker timeout (40 s) exceeding the caller-supplied
global timeout (30 s). -/
def cfgBigWorkerEx : WorkerPoolConfig := ⟨1, 40 * second, 30 * second, false⟩

/-! ## Basic lemmas about the trace machinery -/

lemma flatten_set_perm {α : Type} (ls : List (List α)) :
    ∀ (k : Nat) (e : α) (rest : List α), ls[k]? = some (e :: rest) →
      (e :: (ls.set k rest).flatten).Perm ls.flatten := by
  induction ls with
  | nil => intro k e rest h; simp at h
  | cons hd tl ih =>
    intro k e rest h
    cases k with
    | zero =>
      simp only [List.getElem?_cons_zero, Option.some.injEq] at h
      subst h
      simp only [List.set_cons_zero, List.flatten_cons, List.cons_append]
      exact List.Perm.refl _
    | succ k =>
      simp only [List.getElem?_cons_succ] at h
      have hp := ih k e rest h
      simp only [List.set_cons_succ, List.flatten_cons]
      exact (List.perm_middle.symm.trans (List.Perm.append_left hd hp))

lemma interleave_perm {α : Type} :
    ∀ (sched : List Nat) (ls : List (List α)),
      (interleave sched ls).Perm ls.flatten := by
  intro sched
  induction sched with
  | nil => intro ls; exact List.Perm.refl _
  | cons k s ih =>
    intro ls
    cases h : ls[k]? with
    | none => simpa [interleave, h] using ih ls
    | some l =>
      cases l with
      | nil => simpa [interleave, h] using ih ls
      | cons e rest =>
        have : interleave (k :: s) ls = e :: interleave s (ls.set k rest) := by
          simp [interleave, h]
        rw [this]
        exact ((ih (ls.set k rest)).cons e).trans (flatten_set_perm ls k e rest h)

lemma sendsOf_append {R : Type} (t₁ t₂ : List (Event R)) :
    sendsOf (t₁ ++ t₂) = sendsOf t₁ ++ sendsOf t₂ := by
  simp [sendsOf, List.filterMap_append]

lemma sendIds_jobEvents {T R : Type} (cfg : WorkerPoolConfig) (hasSem : Bool)
    (j : Job T) (p : JobPath R) :
    (sendsOf (jobEvents cfg hasSem j p)).map Result.ID = [j.ID] := by
  cases p with
  | feederSkip => simp [jobEvents, sendsOf, sendResultOf]
  | ctxSkip => simp [jobEvents, sendsOf, sendResultOf]
  | semSkip => simp [jobEvents, sendsOf, sendResultOf]
  | panicked msg =>
    cases hasSem <;> cases h : cfg.StopOnError <;>
      simp [jobEvents, sendsOf, sendResultOf, h]
  | ran v err =>
    cases hasSem <;> cases h : cfg.StopOnError <;> cases err <;>
      simp [jobEvents, sendsOf, sendResultOf, h]

lemma sendIds_perJobEvents {T R : Type} (cfg : WorkerPoolConfig) (hasSem : Bool)
    (paths : Nat → JobPath R) :
    ∀ (jobs : List (Job T)) (i : Nat),
      (sendsOf (perJobEvents cfg hasSem paths i jobs).flatten).map Result.ID
        = jobs.map Job.ID := by
  intro jobs
  induction jobs with
  | nil => intro i; simp [perJobEvents, sendsOf]
  | cons j js ih =>
    intro i
    simp only [perJobEvents, List.flatten_cons, sendsOf_append, List.map_append,
      List.map_cons, ih (i + 1)]
    rw [sendIds_jobEvents]
    rfl

lemma streamOfTrace_eq_sends {R : Type} :
    ∀ (t : List (Event R)) (sent : List Int),
      ((sendsOf t).map Result.ID).Nodup →
      (∀ r ∈ sendsOf t, r.ID ∉ sent) →
      streamOfTrace sent t = sendsOf t := by
  intro t
  induction t with
  | nil => intro sent _ _; rfl
  | cons e rest ih =>
    intro sent hnd hdisj
    cases h : sendResultOf e with
    | none =>
      have h1 : sendsOf (e :: rest) = sendsOf rest := by
        simp [sendsOf, List.filterMap_cons, h]
      rw [h1] at hnd hdisj
      simp only [streamOfTrace, h]
      rw [h1]
      exact ih sent hnd hdisj
    | some r =>
      have h1 : sendsOf (e :: rest) = r :: sendsOf rest := by
        simp [sendsOf, List.filterMap_cons, h]
      rw [h1] at hnd hdisj
      have hr : r.ID ∉ sent := hdisj r (List.mem_cons_self r _)
      simp only [List.map_cons, List.nodup_cons] at hnd
      simp only [streamOfTrace, h]
      rw [if_neg hr, h1]
      congr 1
      refine ih (r.ID :: sent) hnd.2 ?_
      intro r' hr' hmem'
      rcases List.mem_cons.mp hmem' with hh | hh
      · exact hnd.1 (hh ▸ List.mem_map_of_mem Result.ID hr')
      · exact hdisj r' (List.mem_cons_of_mem r hr') hh

lemma findDupIds_none_nodup :
    ∀ (ids : List Int) (seen : List Int), findDupIds seen ids = none →
      ids.Nodup ∧ ∀ x ∈ ids, x ∉ seen := by
  intro ids
  induction ids with
  | nil => intro seen _; exact ⟨List.nodup_nil, by simp⟩
  | cons x xs ih =>
    intro seen h
    rw [findDupIds] at h
    by_cases hx : x ∈ seen
    · simp [hx] at h
    · rw [if_neg hx] at h
      obtain ⟨hnd, hmem⟩ := ih (x :: seen) h
      refine ⟨List.nodup_cons.mpr ⟨fun hc => ?_, hnd⟩, ?_⟩
      · exact hmem x hc (List.mem_cons_self x seen)
      · intro y hy
        rcases List.mem_cons.mp hy with rfl | hy'
        · exact hx
        · intro hc
          exact hmem y hy' (List.mem_cons_of_mem x hc)

lemma findDuplicate_none_nodup {T : Type} (jobs : List (Job T))
    (h : findDuplicate jobs = none) : (jobs.map Job.ID).Nodup :=
  (findDupIds_none_nodup (jobs.map Job.ID) [] h).1

/-! ## Branch equations of the entry point -/

lemma run_empty_eq {T R : Type} (ctxCancelled : Bool) (hasSem : Bool)
    (cfg : WorkerPoolConfig) (paths : Nat → JobPath R) (sched : List Nat) :
    RunGenericWorkerPoolStream ctxCancelled ([] : List (Job T)) hasSem cfg paths
      sched = ⟨[], [.closeOut]⟩ := by
  simp [RunGenericWorkerPoolStream]

lemma run_dup_eq {T R : Type} (ctxCancelled : Bool) (jobs : List (Job T))
    (hasSem : Bool) (cfg : WorkerPoolConfig) (paths : Nat → JobPath R)
    (sched : List Nat) (d : Int) (h : findDuplicate jobs = some d) :
    RunGenericWorkerPoolStream ctxCancelled jobs hasSem cfg paths sched =
      ⟨dupStream R jobs d, (dupStream R jobs d).map .send ++ [.closeOut]⟩ := by
  have hne : jobs.isEmpty = false := by
    cases jobs with
    | nil => simp [findDuplicate, findDupIds] at h
    | cons j js => rfl
  simp [RunGenericWorkerPoolStream, hne, h]

lemma run_cancelled_eq {T R : Type} (jobs : List (Job T)) (hasSem : Bool)
    (cfg : WorkerPoolConfig) (paths : Nat → JobPath R) (sched : List Nat)
    (hne : jobs.isEmpty = false) (hd : findDuplicate jobs = none) :
    RunGenericWorkerPoolStream true jobs hasSem cfg paths sched =
      ⟨skipStream R jobs, (skipStream R jobs).map .send ++ [.closeOut]⟩ := by
  simp [RunGenericWorkerPoolStream, hne, hd]

lemma run_main_eq {T R : Type} (jobs : List (Job T)) (hasSem : Bool)
    (cfg : WorkerPoolConfig) (paths : Nat → JobPath R) (sched : List Nat)
    (hne : jobs.isEmpty = false) (hd : findDuplicate jobs = none) :
    RunGenericWorkerPoolStream false jobs hasSem cfg paths sched =
      ⟨streamOfTrace []
          (interleave sched (perJobEvents (applyDefaults cfg) hasSem paths 0 jobs)
            ++ finalizerEvents R),
        interleave sched (perJobEvents (applyDefaults cfg) hasSem paths 0 jobs)
          ++ finalizerEvents R⟩ := by
  simp [RunGenericWorkerPoolStream, hne, hd]

lemma sends_main_trace_perm {T R : Type} (jobs : List (Job T)) (hasSem : Bool)
    (cfg : WorkerPoolConfig) (paths : Nat → JobPath R) (sched : List Nat) :
    ((sendsOf (interleave sched
        (perJobEvents (applyDefaults cfg) hasSem paths 0 jobs)
        ++ finalizerEvents R)).map Result.ID).Perm (jobs.map Job.ID) := by
  rw [sendsOf_append]
  have hfin : sendsOf (finalizerEvents R) = [] := rfl
  rw [hfin, List.append_nil]
  have hperm : (sendsOf (interleave sched
      (perJobEvents (applyDefaults cfg) hasSem paths 0 jobs))).Perm
      (sendsOf (perJobEvents (applyDefaults cfg) hasSem paths 0 jobs).flatten) :=
    (interleave_perm sched _).filterMap sendResultOf
  have := hperm.map Result.ID
  rwa [sendIds_perJobEvents] at this

/-! ## Claim theorems -/

/-- C1: for every call to `RunGenericWorkerPoolStream` — every caller
context, batch, semaphore, configuration, per-job outcome and schedule —
the multiset of IDs of the Results delivered on the returned stream equals
the multiset of IDs of the input jobs. -/
theorem C1_result_ids_match_job_ids {T R : Type} (ctxCancelled : Bool)
    (jobs : List (Job T)) (hasSem : Bool) (cfg : WorkerPoolConfig)
    (paths : Nat → JobPath R) (sched : List Nat) :
    ((RunGenericWorkerPoolStream ctxCancelled jobs hasSem cfg paths
        sched).stream.map Result.ID).Perm (jobs.map Job.ID) := by
  cases hje : jobs.isEmpty with
  | true =>
    rw [List.isEmpty_iff.mp hje, run_empty_eq]
    exact List.Perm.refl _
  | false =>
    cases hd : findDuplicate jobs with
    | some d =>
      rw [run_dup_eq ctxCancelled jobs hasSem cfg paths sched d hd]
      simp only [dupStream, List.map_map]
      exact List.Perm.refl _
    | none =>
      cases ctxCancelled with
      | true =>
        rw [run_cancelled_eq jobs hasSem cfg paths sched hje hd]
        simp only [skipStream, List.map_map]
        exact List.Perm.refl _
      | false =>
        rw [run_main_eq jobs hasSem cfg paths sched hje hd]
        have hperm := sends_main_trace_perm jobs hasSem cfg paths sched
          (R := R)
        have hnodup : ((sendsOf (interleave sched
            (perJobEvents (applyDefaults cfg) hasSem paths 0 jobs)
            ++ finalizerEvents R)).map Result.ID).Nodup :=
          hperm.nodup_iff.mpr (findDuplicate_none_nodup jobs hd)
        have hstream := streamOfTrace_eq_sends
          (interleave sched (perJobEvents (applyDefaults cfg) hasSem paths 0 jobs)
            ++ finalizerEvents R) [] hnodup (by simp)
        simpa [hstream] using hperm

lemma closeOut_not_mem_jobEvents {T R : Type} (cfg : WorkerPoolConfig)
    (hasSem : Bool) (j : Job T) (p : JobPath R) :
    Event.closeOut ∉ jobEvents cfg hasSem j p := by
  cases p with
  | feederSkip => simp [jobEvents]
  | ctxSkip => simp [jobEvents]
  | semSkip => simp [jobEvents]
  | panicked msg =>
    cases hasSem <;> cases h : cfg.StopOnError <;> simp [jobEvents, h]
  | ran v err =>
    cases hasSem <;> cases h : cfg.StopOnError <;> cases err <;>
      simp [jobEvents, h]

lemma closeOut_not_mem_perJobEvents {T R : Type} (cfg : WorkerPoolConfig)
    (hasSem : Bool) (paths : Nat → JobPath R) :
    ∀ (jobs : List (Job T)) (i : Nat),
      Event.closeOut ∉ (perJobEvents cfg hasSem paths i jobs).flatten := by
  intro jobs
  induction jobs with
  | nil => intro i h; simp [perJobEvents] at h
  | cons j js ih =>
    intro i h
    rw [perJobEvents, List.flatten_cons] at h
    rcases List.mem_append.mp h with h1 | h1
    · exact closeOut_not_mem_jobEvents cfg hasSem j (paths i) h1
    · exact ih (i + 1) h1

/-- C2: the output stream is closed exactly once, and the close strictly
follows every write: in every branch of the call the trace decomposes as a
close-free prefix followed by the single `close(outCh)`.  (In the
concurrent branch the close-free prefix ends with the finalizer's own
`cancelPool()`, which the finalizer only reaches after `feederWG.Wait()`
and `workerWG.Wait()` have returned — the model appends the finalizer
events after every feeder and worker event for exactly that reason.) -/
theorem C2_stream_closed_once_after_last_write {T R : Type}
    (ctxCancelled : Bool) (jobs : List (Job T)) (hasSem : Bool)
    (cfg : WorkerPoolConfig) (paths : Nat → JobPath R) (sched : List Nat) :
    ∃ t1 : List (Event R),
      (RunGenericWorkerPoolStream ctxCancelled jobs hasSem cfg paths
          sched).trace = t1 ++ [Event.closeOut] ∧ Event.closeOut ∉ t1 := by
  cases hje : jobs.isEmpty with
  | true =>
    rw [List.isEmpty_iff.mp hje, run_empty_eq]
    exact ⟨[], rfl, by simp⟩
  | false =>
    cases hd : findDuplicate jobs with
    | some d =>
      rw [run_dup_eq ctxCancelled jobs hasSem cfg paths sched d hd]
      refine ⟨(dupStream R jobs d).map .send, rfl, ?_⟩
      intro h
      rcases List.mem_map.mp h with ⟨r, _, hr⟩
      exact Event.noConfusion hr
    | none =>
      cases ctxCancelled with
      | true =>
        rw [run_cancelled_eq jobs hasSem cfg paths sched hje hd]
        refine ⟨(skipStream R jobs).map .send, rfl, ?_⟩
        intro h
        rcases List.mem_map.mp h with ⟨r, _, hr⟩
        exact Event.noConfusion hr
      | false =>
        rw [run_main_eq jobs hasSem cfg paths sched hje hd]
        refine ⟨interleave sched
            (perJobEvents (applyDefaults cfg) hasSem paths 0 jobs)
            ++ [Event.cancelRaw], by simp [finalizerEvents], ?_⟩
        intro h
        rcases List.mem_append.mp h with h1 | h1
        · exact closeOut_not_mem_perJobEvents (applyDefaults cfg) hasSem paths
            jobs 0 ((interleave_perm sched _).mem_iff.mp h1)
        · simp at h1

lemma countP_sendMap_eq_zero {T R : Type} (p : Event R → Bool)
    (hp : ∀ r : Result R, p (.send r) = false) (f : Job T → Result R)
    (jobs : List (Job T)) :
    ((jobs.map (Event.send ∘ f)).countP p) = 0 := by
  rw [List.countP_eq_zero]
  intro e he
  rcases List.mem_map.mp he with ⟨j, _, rfl⟩
  simp [hp]

lemma countAcqRel_jobEvents {T R : Type} (cfg : WorkerPoolConfig)
    (hasSem : Bool) (j : Job T) (p : JobPath R) :
    (jobEvents cfg hasSem j p).countP isAcquire
      = (jobEvents cfg hasSem j p).countP isRelease := by
  cases p with
  | feederSkip => rfl
  | ctxSkip => rfl
  | semSkip => rfl
  | panicked msg =>
    cases hasSem <;> cases h : cfg.StopOnError <;>
      simp [jobEvents, h, List.countP_append, List.countP_cons, isAcquire,
        isRelease]
  | ran v err =>
    cases hasSem <;> cases h : cfg.StopOnError <;> cases err <;>
      simp [jobEvents, h, List.countP_append, List.countP_cons, isAcquire,
        isRelease]

lemma countAcqRel_perJobEvents {T R : Type} (cfg : WorkerPoolConfig)
    (hasSem : Bool) (paths : Nat → JobPath R) :
    ∀ (jobs : List (Job T)) (i : Nat),
      (perJobEvents cfg hasSem paths i jobs).flatten.countP isAcquire
        = (perJobEvents cfg hasSem paths i jobs).flatten.countP isRelease := by
  intro jobs
  induction jobs with
  | nil => intro i; rfl
  | cons j js ih =>
    intro i
    rw [perJobEvents, List.flatten_cons, List.countP_append,
      List.countP_append, countAcqRel_jobEvents, ih (i + 1)]

/-- C6: every semaphore permit the pool acquires is matched by exactly one
release.  Stated twice: for the single iteration handling any one job on
any of its exit paths (success, user error, panic, and the skip paths on
which nothing was acquired), and for the whole trace of any call made with
a semaphore, so the permit count after the stream closes equals the count
before the call. -/
theorem C6_semaphore_acquire_release_balanced {T R : Type}
    (ctxCancelled : Bool) (jobs : List (Job T)) (cfg : WorkerPoolConfig)
    (paths : Nat → JobPath R) (sched : List Nat) :
    ((RunGenericWorkerPoolStream ctxCancelled jobs true cfg paths
        sched).trace.countP isAcquire
      = (RunGenericWorkerPoolStream ctxCancelled jobs true cfg paths
        sched).trace.countP isRelease)
    ∧ ∀ (c : WorkerPoolConfig) (j : Job T) (p : JobPath R),
        (jobEvents c true j p).countP isAcquire
          = (jobEvents c true j p).countP isRelease := by
  refine ⟨?_, fun c j p => countAcqRel_jobEvents c true j p⟩
  cases hje : jobs.isEmpty with
  | true => rw [List.isEmpty_iff.mp hje, run_empty_eq]; rfl
  | false =>
    cases hd : findDuplicate jobs with
    | some d =>
      rw [run_dup_eq ctxCancelled jobs true cfg paths sched d hd]
      simp only [dupStream, List.map_map, List.countP_append]
      rw [countP_sendMap_eq_zero isAcquire (fun _ => rfl),
        countP_sendMap_eq_zero isRelease (fun _ => rfl)]
      rfl
    | none =>
      cases ctxCancelled with
      | true =>
        rw [run_cancelled_eq jobs true cfg paths sched hje hd]
        simp only [skipStream, List.map_map, List.countP_append]
        rw [countP_sendMap_eq_zero isAcquire (fun _ => rfl),
          countP_sendMap_eq_zero isRelease (fun _ => rfl)]
        rfl
      | false =>
        rw [run_main_eq jobs true cfg paths sched hje hd]
        simp only [List.countP_append]
        rw [((interleave_perm sched _).countP_eq isAcquire),
          ((interleave_perm sched _).countP_eq isRelease),
          countAcqRel_perJobEvents]
        simp [finalizerEvents, List.countP_cons, isAcquire, isRelease]

/-! ## The duplicate scan reports the first second-occurrence -/

lemma specFirstRepeatedFrom_cons (pre : List Int) (x : Int) (xs : List Int) :
    specFirstRepeatedFrom pre (x :: xs) =
      if x ∈ pre then some x else specFirstRepeatedFrom (pre ++ [x]) xs := by
  by_cases hx : x ∈ pre
  · simp [specFirstRepeatedFrom, List.range_succ_eq_map, List.find?_cons, hx]
  · rw [if_neg hx]
    simp only [specFirstRepeatedFrom, List.length_cons, List.range_succ_eq_map,
      List.find?_cons]
    have h0 : (decide ((x :: xs).getD 0 0 ∈ pre ++ (x :: xs).take 0)) = false := by
      simp [hx]
    rw [h0]
    rw [List.find?_map]
    rw [Option.map_map]
    have hpred : ∀ i : Nat,
        (fun i => decide ((x :: xs).getD i 0 ∈ pre ++ (x :: xs).take i)) (i + 1)
          = decide (xs.getD i 0 ∈ (pre ++ [x]) ++ xs.take i) := by
      intro i
      simp [List.getD_cons_succ, List.take_succ_cons, List.append_assoc]
    have hfun : ((fun i =>
          decide ((x :: xs).getD i 0 ∈ pre ++ (x :: xs).take i)) ∘ Nat.succ)
        = fun i => decide (xs.getD i 0 ∈ (pre ++ [x]) ++ xs.take i) := by
      funext i
      exact hpred i
    rw [hfun]
    rcases hres : List.find?
        (fun i => decide (xs.getD i 0 ∈ (pre ++ [x]) ++ xs.take i))
        (List.range xs.length) with _ | i
    · rfl
    · simp [List.getD_cons_succ, Function.comp]

lemma findDupIds_congr (ids : List Int) :
    ∀ (s₁ s₂ : List Int), (∀ a : Int, a ∈ s₁ ↔ a ∈ s₂) →
      findDupIds s₁ ids = findDupIds s₂ ids := by
  induction ids with
  | nil => intro s₁ s₂ _; rfl
  | cons x xs ih =>
    intro s₁ s₂ hmem
    rw [findDupIds, findDupIds]
    by_cases hx : x ∈ s₁
    · rw [if_pos hx, if_pos ((hmem x).mp hx)]
    · rw [if_neg hx, if_neg (fun hc => hx ((hmem x).mpr hc))]
      refine ih (x :: s₁) (x :: s₂) ?_
      intro a
      simp [hmem a]

lemma findDupIds_eq_specFrom :
    ∀ (ids pre : List Int), findDupIds pre ids = specFirstRepeatedFrom pre ids := by
  intro ids
  induction ids with
  | nil => intro pre; rfl
  | cons x xs ih =>
    intro pre
    rw [findDupIds, specFirstRepeatedFrom_cons]
    by_cases hx : x ∈ pre
    · rw [if_pos hx, if_pos hx]
    · rw [if_neg hx, if_neg hx]
      rw [findDupIds_congr xs (x :: pre) (pre ++ [x]) (by intro a; simp; tauto)]
      exact ih (pre ++ [x])

lemma findDuplicate_eq_specFirstRepeated {T : Type} (jobs : List (Job T)) :
    findDuplicate jobs = specFirstRepeated (jobs.map Job.ID) :=
  findDupIds_eq_specFrom (jobs.map Job.ID) []

/-- C3 counterexample: with stop-on-error set and the user function
returning a non-nil error, the worker iteration's program order is
invocation, `safeCancelPool()`, then `sendResult(...)`: the pool cancel is
invoked strictly *before* the erroring Result is enqueued, refuting the
claim that the enqueue precedes the cancel. -/
theorem C3_counterexample_cancel_precedes_enqueue :
    jobEvents cfgStopEx false (⟨1, (10 : Int)⟩ : Job Int)
        (JobPath.ran (0 : Int) (some "boom"))
      = [Event.invokeFn 1, Event.cancelSafe,
          Event.send ⟨1, some 0, some "boom"⟩] ∧
    ((jobEvents cfgStopEx false (⟨1, (10 : Int)⟩ : Job Int)
        (JobPath.ran (0 : Int) (some "boom"))).takeWhile
          fun e => !isSend e).any isCancelSafe = true := by
  decide

/-- C3 (amended): when stop-on-error is set and the user function returns
a non-nil error, the worker invokes the pool cancel after the user
function returns but immediately *before* it enqueues the erroring
Result; the Result is still enqueued on the same path.  (On the panic
path the order is reversed: the recover handler enqueues first.) -/
theorem C3_amended_cancel_before_enqueue {T R : Type}
    (cfg : WorkerPoolConfig) (hasSem : Bool) (j : Job T) (v : R) (e : String)
    (h : cfg.StopOnError = true) :
    jobEvents cfg hasSem j (.ran v (some e)) =
      (if hasSem then [Event.acquireSem] else []) ++
      [Event.invokeFn j.ID, Event.cancelSafe,
        Event.send ⟨j.ID, some v, some e⟩] ++
      (if hasSem then [Event.releaseSem] else []) := by
  cases hasSem <;> simp [jobEvents, h]

/-- Witness for the amended C3 at a concrete configuration and job. -/
theorem C3_amended_cancel_before_enqueue_witness :
    cfgStopEx.StopOnError = true ∧
    jobEvents cfgStopEx false (⟨2, (0 : Int)⟩ : Job Int)
        (.ran (5 : Int) (some "err")) =
      (if false then [Event.acquireSem] else []) ++
      [Event.invokeFn 2, Event.cancelSafe,
        Event.send ⟨2, some 5, some "err"⟩] ++
      (if false then [Event.releaseSem] else []) :=
  ⟨by decide,
    C3_amended_cancel_before_enqueue cfgStopEx false (⟨2, (0 : Int)⟩ : Job Int)
      (5 : Int) "err" (by decide)⟩

/-- C4 counterexample: a caller-supplied worker timeout of 40 s with a
caller-supplied global timeout of 30 s is *not* capped: default
application keeps the worker timeout at 40 s, above the caller's global
timeout, and instead raises the global timeout to 80 s. -/
theorem C4_counterexample_positive_worker_timeout_not_capped :
    (applyDefaults cfgBigWorkerEx).WorkerTimeout = 40 * second ∧
    cfgBigWorkerEx.GlobalTimeout = 30 * second ∧
    cfgBigWorkerEx.GlobalTimeout < (applyDefaults cfgBigWorkerEx).WorkerTimeout ∧
    (applyDefaults cfgBigWorkerEx).GlobalTimeout = 80 * second := by
  decide

/-- C4 (amended): the cap at `global_timeout` applies only on the default
path: a non-positive `worker_timeout` is replaced by 15 s and then capped
at the (already defaulted) `global_timeout`; a caller-supplied positive
`worker_timeout` is returned unchanged — when it exceeds `global_timeout`
the pool raises `global_timeout` to twice the worker timeout rather than
capping the worker timeout. -/
theorem C4_amended_cap_only_when_defaulted (cfg : WorkerPoolConfig) :
    (0 < cfg.WorkerTimeout →
      (applyDefaults cfg).WorkerTimeout = cfg.WorkerTimeout) ∧
    (cfg.WorkerTimeout ≤ 0 →
      (applyDefaults cfg).WorkerTimeout ≤ 15 * second ∧
      (applyDefaults cfg).WorkerTimeout ≤
        (if cfg.GlobalTimeout ≤ 0 then 30 * second else cfg.GlobalTimeout)) := by
  constructor
  · intro h
    simp only [applyDefaults]
    rw [if_neg (by omega)]
  · intro h
    simp only [applyDefaults, second]
    split_ifs <;> constructor <;> simp [second] <;> omega

/-- Witness for the amended C4: the positive branch at the 40 s / 30 s
configuration, the default branch at the all-zero configuration. -/
theorem C4_amended_cap_only_when_defaulted_witness :
    (0 < cfgBigWorkerEx.WorkerTimeout ∧
      (applyDefaults cfgBigWorkerEx).WorkerTimeout
        = cfgBigWorkerEx.WorkerTimeout) ∧
    (cfgZeroEx.WorkerTimeout ≤ 0 ∧
      ((applyDefaults cfgZeroEx).WorkerTimeout ≤ 15 * second ∧
        (applyDefaults cfgZeroEx).WorkerTimeout ≤
          (if cfgZeroEx.GlobalTimeout ≤ 0 then 30 * second
            else cfgZeroEx.GlobalTimeout))) :=
  ⟨⟨by decide, (C4_amended_cap_only_when_defaulted cfgBigWorkerEx).1 (by decide)⟩,
    ⟨by decide, (C4_amended_cap_only_when_defaulted cfgZeroEx).2 (by decide)⟩⟩

lemma countP_invoke_sendMap {R : Type} (rs : List (Result R)) :
    ((rs.map Event.send).countP isInvoke) = 0 := by
  rw [List.countP_map, List.countP_eq_zero]
  intro r _
  simp [isInvoke, Function.comp]

/-- C5: a batch containing a repeated ID is rejected whole: the stream
carries exactly one failure Result per input job — result count equal to
the batch size, the first occurrence of the colliding ID included — each
with the message `duplicate job ID detected: <d> (all jobs rejected)`
for the reported colliding ID `d`; the trace is those sends followed by
the close, and the user function is never invoked. -/
theorem C5_duplicate_batch_all_rejected {T R : Type} (ctxCancelled : Bool)
    (jobs : List (Job T)) (hasSem : Bool) (cfg : WorkerPoolConfig)
    (paths : Nat → JobPath R) (sched : List Nat) (d : Int)
    (h : findDuplicate jobs = some d) :
    (RunGenericWorkerPoolStream ctxCancelled jobs hasSem cfg paths
        sched).stream
      = jobs.map (fun j => (⟨j.ID, none, some (dupErrMsg d)⟩ : Result R)) ∧
    (RunGenericWorkerPoolStream ctxCancelled jobs hasSem cfg paths
        sched).stream.length = jobs.length ∧
    (RunGenericWorkerPoolStream ctxCancelled jobs hasSem cfg paths
        sched).trace
      = (jobs.map
          (fun j => (⟨j.ID, none, some (dupErrMsg d)⟩ : Result R))).map
            Event.send ++ [Event.closeOut] ∧
    (RunGenericWorkerPoolStream ctxCancelled jobs hasSem cfg paths
        sched).trace.countP isInvoke = 0 := by
  rw [run_dup_eq ctxCancelled jobs hasSem cfg paths sched d h]
  refine ⟨rfl, by simp [dupStream], rfl, ?_⟩
  rw [List.countP_append]
  rw [show (dupStream R jobs d).map Event.send
      = (jobs.map fun j => (⟨j.ID, none, some (dupErrMsg d)⟩ : Result R)).map
        Event.send from rfl]
  rw [countP_invoke_sendMap]
  rfl

/-- Witness for C5 on the concrete duplicated batch. -/
theorem C5_duplicate_batch_all_rejected_witness :
    findDuplicate dupJobsEx = some 1 ∧
    ((RunGenericWorkerPoolStream false dupJobsEx false cfgZeroEx pathsSkipEx
        []).stream
      = dupJobsEx.map (fun j => (⟨j.ID, none, some (dupErrMsg 1)⟩ :
          Result Int)) ∧
    (RunGenericWorkerPoolStream false dupJobsEx false cfgZeroEx pathsSkipEx
        []).stream.length = dupJobsEx.length ∧
    (RunGenericWorkerPoolStream false dupJobsEx false cfgZeroEx pathsSkipEx
        []).trace
      = (dupJobsEx.map
          (fun j => (⟨j.ID, none, some (dupErrMsg 1)⟩ : Result Int))).map
            Event.send ++ [Event.closeOut] ∧
    (RunGenericWorkerPoolStream false dupJobsEx false cfgZeroEx pathsSkipEx
        []).trace.countP isInvoke = 0) :=
  ⟨by decide,
    C5_duplicate_batch_all_rejected false dupJobsEx false cfgZeroEx pathsSkipEx
      [] 1 (by decide)⟩

/-- C7 counterexample: no single function is invoked from all three
cancellation sites.  The finalizer's events are the raw `cancelPool()`
followed by the close — it never invokes the `sync.Once`-wrapped
`safeCancelPool` — while the stop-on-error and panic sites invoke
`safeCancelPool` and never the raw `cancelPool`. -/
theorem C7_counterexample_finalizer_bypasses_safe_cancel :
    finalizerEvents Int = [Event.cancelRaw, Event.closeOut] ∧
    Event.cancelSafe ∉ finalizerEvents Int ∧
    Event.cancelSafe ∈ jobEvents cfgStopEx false (⟨1, (0 : Int)⟩ : Job Int)
      (JobPath.ran (0 : Int) (some "boom")) ∧
    Event.cancelRaw ∉ jobEvents cfgStopEx false (⟨1, (0 : Int)⟩ : Job Int)
      (JobPath.ran (0 : Int) (some "boom")) ∧
    Event.cancelSafe ∈ jobEvents cfgStopEx false (⟨1, (0 : Int)⟩ : Job Int)
      (JobPath.panicked (R := Int) "boom") ∧
    Event.cancelRaw ∉ jobEvents cfgStopEx false (⟨1, (0 : Int)⟩ : Job Int)
      (JobPath.panicked (R := Int) "boom") := by
  decide

/-- C7 (amended): the `sync.Once`-wrapped `safeCancelPool` is idempotent
and is the cancel invoked from the stop-on-error and panic-handler sites
(when stop-on-error is active); the finalizer instead invokes the
underlying `cancelPool` directly, which is itself idempotent (a Go
`context.CancelFunc` does nothing after its first call).  So cancellation
from every site, in any order and multiplicity, leaves the pool simply
cancelled. -/
theorem C7_amended_idempotent_cancel_sites {T R : Type} (s : CancelState)
    (cfg : WorkerPoolConfig) (hasSem : Bool) (j : Job T) (v : R)
    (e msg : String) (h : cfg.StopOnError = true) :
    safeCancelPool (safeCancelPool s) = safeCancelPool s ∧
    cancelPool (cancelPool s) = cancelPool s ∧
    (safeCancelPool s).onceDone = true ∧
    (cancelPool s).ctxCancelled = true ∧
    Event.cancelSafe ∈ jobEvents cfg hasSem j (.ran v (some e)) ∧
    Event.cancelSafe ∈ jobEvents cfg hasSem j (JobPath.panicked (R := R) msg) ∧
    Event.cancelRaw ∈ finalizerEvents R := by
  refine ⟨?_, rfl, ?_, rfl, ?_, ?_, ?_⟩
  · by_cases hs : s.onceDone <;> simp [safeCancelPool, cancelPool, hs]
  · by_cases hs : s.onceDone <;> simp [safeCancelPool, cancelPool, hs]
  · cases hasSem <;> simp [jobEvents, h]
  · cases hasSem <;> simp [jobEvents, h]
  · simp [finalizerEvents]

/-- Witness for the amended C7 at a concrete state and configuration. -/
theorem C7_amended_idempotent_cancel_sites_witness :
    cfgStopEx.StopOnError = true ∧
    (safeCancelPool (safeCancelPool ⟨false, false⟩) =
        safeCancelPool ⟨false, false⟩ ∧
      cancelPool (cancelPool ⟨false, false⟩) = cancelPool ⟨false, false⟩ ∧
      (safeCancelPool ⟨false, false⟩).onceDone = true ∧
      (cancelPool ⟨false, false⟩).ctxCancelled = true ∧
      Event.cancelSafe ∈ jobEvents cfgStopEx false (⟨3, (0 : Int)⟩ : Job Int)
        (.ran (0 : Int) (some "bad")) ∧
      Event.cancelSafe ∈ jobEvents cfgStopEx false (⟨3, (0 : Int)⟩ : Job Int)
        (JobPath.panicked (R := Int) "bad") ∧
      Event.cancelRaw ∈ finalizerEvents Int) :=
  ⟨by decide,
    C7_amended_idempotent_cancel_sites ⟨false, false⟩ cfgStopEx false
      (⟨3, (0 : Int)⟩ : Job Int) (0 : Int) "bad" "bad" (by decide)⟩

/-- C8 counterexample: a realizable execution in which the invocation
count grows after pool cancellation is observable.  Job 0's user error
(stop-on-error) triggers `safeCancelPool`; the worker holding job 1 had
already passed its cancellation check, so its `workerFunc` invocation
occurs strictly after the cancel event in the trace. -/
theorem C8_counterexample_invoke_after_cancel :
    hasInvokeAfterCancel
      ((RunGenericWorkerPoolStream false twoJobsEx false cfgStopEx
          pathsErrFirstEx [0, 0, 0]).trace) = true := by
  decide

/-- C8 (amended): a worker that *observes* pool cancellation for a
received job — at the pre-work check or while racing the semaphore
acquisition — emits exactly the skipped Result and never invokes the user
function; the feeder does the same for a job it could not hand over.  The
claim's stronger assertion, that the invocation count cannot grow once
cancellation is observable, fails: a worker whose check passed before the
cancellation still invokes afterwards (see the counterexample). -/
theorem C8_amended_observed_cancel_skips_without_invoking {T R : Type}
    (cfg : WorkerPoolConfig) (hasSem : Bool) (j : Job T) :
    jobEvents cfg hasSem j (JobPath.ctxSkip (R := R))
        = [Event.send ⟨j.ID, none, some errSkippedMsg⟩] ∧
    jobEvents cfg hasSem j (JobPath.semSkip (R := R))
        = [Event.send ⟨j.ID, none, some errSkippedMsg⟩] ∧
    jobEvents cfg hasSem j (JobPath.feederSkip (R := R))
        = [Event.send ⟨j.ID, none, some errSkippedMsg⟩] ∧
    (jobEvents cfg hasSem j (JobPath.ctxSkip (R := R))).countP isInvoke = 0 ∧
    (jobEvents cfg hasSem j (JobPath.semSkip (R := R))).countP isInvoke = 0 ∧
    (jobEvents cfg hasSem j (JobPath.feederSkip (R := R))).countP isInvoke
        = 0 :=
  ⟨rfl, rfl, rfl, rfl, rfl, rfl⟩

/-- C9: the duplicate report is a deterministic single left-to-right
pass: the scan agrees everywhere with the spec-side `specFirstRepeated`,
the ID at the earliest position whose ID already occurs among the earlier
IDs (the first second-occurrence); and when a duplicate is reported, the
per-job failure Results appear on the stream in input order. -/
theorem C9_duplicate_report_first_second_occurrence {T R : Type}
    (jobs : List (Job T)) :
    findDuplicate jobs = specFirstRepeated (jobs.map Job.ID) ∧
    ∀ (ctxCancelled hasSem : Bool) (cfg : WorkerPoolConfig)
      (paths : Nat → JobPath R) (sched : List Nat) (d : Int),
        findDuplicate jobs = some d →
        (RunGenericWorkerPoolStream ctxCancelled jobs hasSem cfg paths
            sched).stream
          = jobs.map fun j => (⟨j.ID, none, some (dupErrMsg d)⟩ : Result R) := by
  refine ⟨findDuplicate_eq_specFirstRepeated jobs, ?_⟩
  intro ctxCancelled hasSem cfg paths sched d h
  rw [run_dup_eq ctxCancelled jobs hasSem cfg paths sched d h]
  rfl

/-- Witness for C9 on the concrete duplicated batch: the reported ID is 1,
the ID of position 2, the earliest position whose ID was already seen. -/
theorem C9_duplicate_report_first_second_occurrence_witness :
    findDuplicate dupJobsEx = specFirstRepeated (dupJobsEx.map Job.ID) ∧
    findDuplicate dupJobsEx = some 1 ∧
    specFirstRepeated (dupJobsEx.map Job.ID) = some 1 ∧
    (RunGenericWorkerPoolStream false dupJobsEx false cfgZeroEx pathsSkipEx
        []).stream
      = dupJobsEx.map fun j => (⟨j.ID, none, some (dupErrMsg 1)⟩ :
          Result Int) :=
  ⟨(C9_duplicate_report_first_second_occurrence (R := Int) dupJobsEx).1,
    by decide, by decide,
    (C9_duplicate_report_first_second_occurrence (R := Int) dupJobsEx).2
      false false cfgZeroEx pathsSkipEx [] 1 (by decide)⟩

/-- C10: the three pre-flight early exits — empty batch, duplicated ID,
already-cancelled caller context — are decided and produce their streams
before the configuration defaults are applied and before the limiter is
consulted: two calls on the same batch and caller context with arbitrary
different configurations, semaphore arguments, outcome oracles and
schedules return identical streams (and traces), and the user function is
never invoked on these paths. -/
theorem C10_preflight_independent_of_config {T R : Type}
    (ctxCancelled : Bool) (jobs : List (Job T)) (hasSemA hasSemB : Bool)
    (cfgA cfgB : WorkerPoolConfig) (pathsA pathsB : Nat → JobPath R)
    (schedA schedB : List Nat)
    (h : jobs = [] ∨ findDuplicate jobs ≠ none ∨ ctxCancelled = true) :
    RunGenericWorkerPoolStream ctxCancelled jobs hasSemA cfgA pathsA schedA
      = RunGenericWorkerPoolStream ctxCancelled jobs hasSemB cfgB pathsB
          schedB ∧
    (RunGenericWorkerPoolStream ctxCancelled jobs hasSemA cfgA pathsA
        schedA).trace.countP isInvoke = 0 := by
  cases hje : jobs.isEmpty with
  | true =>
    rw [List.isEmpty_iff.mp hje, run_empty_eq, run_empty_eq]
    exact ⟨rfl, rfl⟩
  | false =>
    cases hd : findDuplicate jobs with
    | some d =>
      rw [run_dup_eq ctxCancelled jobs hasSemA cfgA pathsA schedA d hd,
        run_dup_eq ctxCancelled jobs hasSemB cfgB pathsB schedB d hd]
      refine ⟨rfl, ?_⟩
      rw [List.countP_append, countP_invoke_sendMap]
      rfl
    | none =>
      cases hctx : ctxCancelled with
      | true =>
        rw [run_cancelled_eq jobs hasSemA cfgA pathsA schedA hje hd,
          run_cancelled_eq jobs hasSemB cfgB pathsB schedB hje hd]
        refine ⟨rfl, ?_⟩
        rw [List.countP_append, countP_invoke_sendMap]
        rfl
      | false =>
        exfalso
        rcases h with h | h | h
        · rw [h] at hje; simp at hje
        · exact h hd
        · rw [hctx] at h; simp at h

/-- Witness for C10: the duplicated batch under two thoroughly different
configurations, semaphore settings, oracles and schedules. -/
theorem C10_preflight_independent_of_config_witness :
    (dupJobsEx = [] ∨ findDuplicate dupJobsEx ≠ none ∨ false = true) ∧
    (RunGenericWorkerPoolStream false dupJobsEx true cfgStopEx pathsErrFirstEx
        [0, 1]
      = RunGenericWorkerPoolStream false dupJobsEx false cfgZeroEx pathsSkipEx
          [] ∧
    (RunGenericWorkerPoolStream false dupJobsEx true cfgStopEx pathsErrFirstEx
        [0, 1]).trace.countP isInvoke = 0) :=
  ⟨Or.inr (Or.inl (by decide)),
    C10_preflight_independent_of_config false dupJobsEx true false cfgStopEx
      cfgZeroEx pathsErrFirstEx pathsSkipEx [0, 1] []
      (Or.inr (Or.inl (by decide)))⟩

end Worker
